import Mathlib

/-!
Shallow embedding of the searx Google News engine
(src/searx/engines/google_news.py): the `request` builder and the
`response` extractor, with theorems checking the specification claims.

External collaborators of the module (the lxml markup parser, the
xpath text helpers, the locale negotiation routine of the google
engine, the localisation catalog, the urllib url parsing) are modelled
as data already resident in the input structures, as the specification
describes them.  The provider lookup tables imported from the google
engine module are not part of the given sources and are modelled from
the specification.
-/

namespace GoogleNews

/-! ## Extraction of the real url from the jslog tracking attribute

The python code runs `re.findall(http-non-semicolon-star, jslog)[0]`:
the first match starts at the first occurrence of the literal "http"
and extends greedily over characters distinct from the semicolon. -/

/-- Greedy run of characters before the first semicolon, mirroring the
regex part matching zero or more characters other than a semicolon. -/
def takeUntilSemi : List Char → List Char
  | [] => []
  | c :: cs => if c = ';' then [] else c :: takeUntilSemi cs

/-- First regex match of the pattern (literal "http" then a greedy run
of non-semicolon characters) on a character list: scans left to right
for the first position where "http" occurs. -/
def findHttpList : List Char → Option (List Char)
  | [] => none
  | c :: cs =>
    if List.isPrefixOf ['h', 't', 't', 'p'] (c :: cs) then some (takeUntilSemi (c :: cs))
    else findHttpList cs

/-- Embedding of `re.findall('http[^;]*', jslog)` followed by taking the
first element: `none` when the pattern does not match (the python
indexing then raises and the block is skipped). -/
def findHttp (s : String) : Option String :=
  (findHttpList s.data).map fun l => ⟨l⟩

/-! ## Data model of the response side -/

/-- Modelled from the spec: one result block, a container div carrying
the layout marker class, as delivered by the markup parsing
collaborator.  `jslog` is the tracking attribute of the first
article-link element (`none` when the xpath yields no node, so that
the python indexing raises); `href` is the visible anchor target,
which the code never reads; the remaining fields are the flattened
text results of the xpath text helper, which returns the empty string
on an empty node set. -/
structure ResultBlock where
  jslog : Option String
  href : String
  title : String
  snippet : String
  pub_date : String
  pub_origin : String
  img_src : String
  deriving Repr, DecidableEq

/-- One normalized result record appended to the results list. -/
structure ResultRecord where
  url : String
  title : String
  content : String
  img_src : String
  deriving Repr, DecidableEq

/-- Modelled from the spec: the localisation catalog collaborator
(flask_babel gettext); it returns the message text itself. -/
def gettext (s : String) : String := s

/-- Modelled from the spec: the response object handed to the
extractor, carrying the final resolved url already split by the
urllib parsing collaborator into host (`netloc`) and `path`, and the
result blocks matched by the fixed structural xpath pattern, in
document order. -/
structure Resp where
  netloc : String
  path : String
  blocks : List ResultBlock
  deriving Repr, DecidableEq

/-- The python str.startswith test, used on the path of the final
resolved url. -/
def startswith (s pre : String) : Bool := List.isPrefixOf pre.data s.data

/-- Body of the per-block try: extract the url from the jslog
attribute, compose the content from publisher, date and snippet, and
build the record.  `none` when a structural mismatch raises inside the
try (missing jslog attribute, or no http match in it): the python
loop then logs and continues with the next block. -/
def processBlock (b : ResultBlock) : Option ResultRecord :=
  match b.jslog with
  | none => none
  | some jslog =>
    match findHttp jslog with
    | none => none
    | some url =>
      let content := b.snippet
      let pub_info :=
        String.intercalate ", "
          ((if b.pub_origin ≠ "" then [b.pub_origin] else [])
            ++ (if b.pub_date ≠ "" then [b.pub_date] else []))
      let content := if pub_info ≠ "" then pub_info ++ ": " ++ content else content
      some { url := url, title := b.title, content := content, img_src := b.img_src }

/-- Embedding of the `response` function: detect the google sorry
interception from the final resolved url, then fold over the result
blocks in document order, appending one record per block whose
per-block try succeeds. -/
def response (resp : Resp) : Except String (List ResultRecord) :=
  if resp.netloc = "sorry.google.com" ∨ resp.path = "/sorry/IndexRedirect" then
    Except.error "sorry.google.com"
  else if startswith resp.path "/sorry" then
    Except.error (gettext "CAPTCHA required")
  else
    Except.ok (resp.blocks.filterMap processBlock)

/-! ## Percent encoding (urllib urlencode with quote_plus) -/

/-- Upper-case hexadecimal digit of a value below sixteen. -/
def hexDigit (n : Nat) : Char :=
  if n < 10 then Char.ofNat (48 + n) else Char.ofNat (65 + (n - 10))

/-- Percent escape of one byte value. -/
def percentByte (b : Nat) : String :=
  String.mk ['%', hexDigit (b / 16 % 16), hexDigit (b % 16)]

/-- UTF-8 byte values of one unicode code point. -/
def utf8Bytes (n : Nat) : List Nat :=
  if n < 128 then [n]
  else if n < 2048 then [192 + n / 64, 128 + n % 64]
  else if n < 65536 then [224 + n / 4096, 128 + n / 64 % 64, 128 + n % 64]
  else [240 + n / 262144, 128 + n / 4096 % 64, 128 + n / 64 % 64, 128 + n % 64]

/-- Characters the urllib quoting never escapes: ascii letters, digits,
underscore, dot, dash and tilde. -/
def isUrlSafe (c : Char) : Bool :=
  c.isAlpha || c.isDigit || c = '_' || c = '.' || c = '-' || c = '~'

/-- Modelled from the spec: urllib quote_plus, the percent encoder the
urlencode helper applies to each key and value independently; a space
becomes a plus, safe characters pass through, every other character is
escaped byte by byte. -/
def quotePlus (s : String) : String :=
  String.join (s.data.map fun c =>
    if c = ' ' then "+"
    else if isUrlSafe c then String.mk [c]
    else String.join ((utf8Bytes c.toNat).map percentByte))

/-- Embedding of `urlencode` applied to a one-entry mapping, as every
call site in the request builder does. -/
def urlencode1 (k v : String) : String := quotePlus k ++ "=" ++ quotePlus v

/-! ## Provider configuration tables

These live in the google engine module, which is not part of the given
sources; contents are modelled from the specification. -/

/-- Modelled from the spec: domain_by_country, the mapping from upper
case country code to provider domain host (representative entries);
countries absent from the table fall back to the canonical default
domain google.com. -/
def google_domains : List (String × String) :=
  [("US", "google.com"), ("GB", "google.co.uk"), ("DE", "google.de"),
   ("FR", "google.fr"), ("BG", "google.bg"), ("CA", "google.ca")]

/-- Modelled from the spec: time_range_codes, the mapping from the
enumerated time range names to the provider filter tokens. -/
def time_range_dict : List (String × String) :=
  [("day", "d"), ("week", "w"), ("month", "m"), ("year", "y")]

/-- Modelled from the spec: safesearch_codes, the mapping from the
safesearch ordinal (off, moderate, strict) to the provider filter
token. -/
def filter_mapping : List (Nat × String) :=
  [(0, "off"), (1, "medium"), (2, "high")]

/-! ## Data model of the request side -/

/-- Upper case of one ascii letter, other characters unchanged. -/
def charUpper (c : Char) : Char :=
  if 'a' ≤ c ∧ c ≤ 'z' then Char.ofNat (c.toNat - 32) else c

/-- The python str.upper call on a country code; country codes are
ascii, so the ascii case map is the faithful model. -/
def strUpper (s : String) : String := ⟨s.data.map charUpper⟩

/-- A python dict assignment on a string-keyed mapping: replace the
value of an existing key in place, or append the binding at the end. -/
def setKey (m : List (String × String)) (k v : String) : List (String × String) :=
  match m with
  | [] => [(k, v)]
  | (k₀, v₀) :: rest => if k₀ = k then (k, v) :: rest else (k₀, v₀) :: setKey rest k v

/-- Modelled from the spec: the request params dict.  The locale
negotiation collaborator (get_lang_country of the google engine, not
part of the given sources) resolves the `language` and `country`
fields before use; `time_range`, `safesearch` and `pageno` are set by
the caller; `headers` is the header sub-mapping; `extra` stands for
every other entry of the dict, which the builder never touches. -/
structure Params where
  language : String
  country : String
  time_range : String
  safesearch : Nat
  pageno : Nat
  url : String
  headers : List (String × String)
  extra : List (String × String)
  deriving Repr, DecidableEq

/-- Host selection of the request builder: news dot the domain table
entry for the upper-cased country, defaulting to google.com. -/
def subdomain (country : String) : String :=
  "news." ++ (List.lookup (strUpper country) google_domains).getD "google.com"

/-- The query parameters the builder appends, in its fixed order: the
free text terms, hl, lr, the two encoding markers, then the time range
token when the time range is a key of the table, then the safesearch
token when the safesearch level is truthy.  The last pair is only
well defined when the safesearch lookup succeeds; `request` fails
otherwise, mirroring the unguarded python subscript. -/
def queryParams (query : String) (p : Params) : List (String × String) :=
  [("q", query),
   ("hl", p.language ++ "-" ++ p.country),
   ("lr", "lang_" ++ p.language),
   ("ie", "utf8"),
   ("oe", "utf8")]
  ++ (match List.lookup p.time_range time_range_dict with
      | some c => [("tbs", "qdr:" ++ c)]
      | none => [])
  ++ (if p.safesearch ≠ 0 then
        match List.lookup p.safesearch filter_mapping with
        | some tok => [("safe", tok)]
        | none => []
      else [])

/-- The fixed Accept header value the builder sets. -/
def acceptValue : String :=
  "text/html,application/xhtml+xml,application/xml;q=0.9,image/webp,*/*;q=0.8"

/-- The Accept-Language header value built from the resolved locale. -/
def acceptLanguageValue (language country : String) : String :=
  language ++ "-" ++ country ++ "," ++ language ++ ";q=0.8," ++ language ++ ";q=0.5"

/-- Embedding of the `request` function: build the query url by
successive appends, set the url entry and the two header entries on
the given params dict, and return it.  The result is `none` exactly
when the python code raises a key error, namely on the unguarded
safesearch table subscript for a truthy level outside the table. -/
def request (query : String) (p : Params) : Option Params :=
  let language := p.language
  let country := p.country
  let sub := "news." ++ (List.lookup (strUpper country) google_domains).getD "google.com"
  let query_url := "https://" ++ sub ++ "/search" ++ "?" ++ urlencode1 "q" query
  let query_url := query_url ++ "&" ++ urlencode1 "hl" (language ++ "-" ++ country)
  let query_url := query_url ++ "&" ++ urlencode1 "lr" ("lang_" ++ language)
  let query_url := query_url ++ "&" ++ urlencode1 "ie" "utf8"
  let query_url := query_url ++ "&" ++ urlencode1 "oe" "utf8"
  let query_url :=
    match List.lookup p.time_range time_range_dict with
    | some c => query_url ++ "&" ++ urlencode1 "tbs" ("qdr:" ++ c)
    | none => query_url
  let safePart : Option String :=
    if p.safesearch ≠ 0 then
      match List.lookup p.safesearch filter_mapping with
      | some tok => some ("&" ++ urlencode1 "safe" tok)
      | none => none
    else some ""
  match safePart with
  | none => none
  | some tail =>
    some { p with
      url := query_url ++ tail,
      headers :=
        setKey (setKey p.headers "Accept-Language" (acceptLanguageValue language country))
          "Accept" acceptValue }

/-! ## Concrete example values used by the closed witnesses -/

/-- A well-formed result block, with the jslog shape shown in the
source comment. -/
def exBlock : ResultBlock :=
  { jslog := some "95014; 4:https://www.cnn.com/a/index.html; track:click",
    href := "./articles/CAIiENu3nGS", title := "T", snippet := "S",
    pub_date := "yesterday", pub_origin := "CNN", img_src := "https://img.example/i" }

/-- The record the per-block extraction yields on `exBlock`. -/
def exRecord : ResultRecord :=
  { url := "https://www.cnn.com/a/index.html", title := "T",
    content := "CNN, yesterday: S", img_src := "https://img.example/i" }

/-- A second well-formed block, with no publisher and no date. -/
def exBlock2 : ResultBlock :=
  { jslog := some "95014; 4:https://example.org/b; track:click",
    href := "./articles/y", title := "T2", snippet := "S2",
    pub_date := "", pub_origin := "", img_src := "" }

/-- The record the per-block extraction yields on `exBlock2`. -/
def exRecord2 : ResultRecord :=
  { url := "https://example.org/b", title := "T2", content := "S2", img_src := "" }

/-- A structurally broken block: the first article-link element has no
jslog attribute, so the python indexing raises inside the try. -/
def exBroken : ResultBlock :=
  { jslog := none, href := "./articles/z", title := "T3", snippet := "S3",
    pub_date := "today", pub_origin := "BBC", img_src := "" }

/-- A non-intercepted response holding two well-formed blocks with a
broken one interleaved. -/
def exResp : Resp :=
  { netloc := "news.google.com", path := "/search",
    blocks := [exBlock, exBroken, exBlock2] }

/-- A concrete query string. -/
def exQuery : String := "foo bar"

/-- A concrete params dict with a resolved locale, a time range, a
truthy safesearch level, a page number and an unrelated entry. -/
def exParams : Params :=
  { language := "en", country := "US", time_range := "week", safesearch := 1,
    pageno := 3, url := "", headers := [("User-Agent", "x")], extra := [("k", "v")] }

/-- The params dict `request` returns on `exQuery` and `exParams`. -/
def exOut : Params :=
  { exParams with
    url := "https://news.google.com/search?q=foo+bar&hl=en-US&lr=lang_en&ie=utf8&oe=utf8&tbs=qdr%3Aw&safe=medium",
    headers := [("User-Agent", "x"),
                ("Accept-Language", "en-US,en;q=0.8,en;q=0.5"),
                ("Accept", acceptValue)] }

/-- The concrete params with a country absent from the domain table. -/
def exParamsZZ : Params := { exParams with country := "ZZ" }

/-- The params dict `request` returns on `exQuery` and `exParamsZZ`. -/
def exOutZZ : Params :=
  { exParamsZZ with
    url := "https://news.google.com/search?q=foo+bar&hl=en-ZZ&lr=lang_en&ie=utf8&oe=utf8&tbs=qdr%3Aw&safe=medium",
    headers := [("User-Agent", "x"),
                ("Accept-Language", "en-ZZ,en;q=0.8,en;q=0.5"),
                ("Accept", acceptValue)] }

/-! ## Helper lemmas -/

/-- A filterMap is the map of the partial function over the kept
elements: order preserving, one output per element on which the
function succeeds. -/
theorem filterMap_eq_map_filter {α β : Type} (f : α → Option β) (d : β) (l : List α) :
    l.filterMap f = (l.filter fun a => (f a).isSome).map fun a => (f a).getD d := by
  induction l with
  | nil => rfl
  | cons a t ih => cases hfa : f a <;> simp [List.filterMap_cons, List.filter_cons, hfa, ih]

/-! ## Theorems on the response side -/

/-- Claim C3: when the final resolved url has the known challenge subdomain
as host, or its path equals the known index redirect path, `response`
raises the hard block interception signal carrying the generic marker,
whatever the body holds: the outcome is the same for every list of
result blocks, so no block is parsed. -/
theorem response_hard_block (resp : Resp)
    (h : resp.netloc = "sorry.google.com" ∨ resp.path = "/sorry/IndexRedirect") :
    response resp = Except.error "sorry.google.com"
      ∧ ∀ blocks, response { resp with blocks := blocks } = Except.error "sorry.google.com" := by
  refine ⟨?_, fun blocks => ?_⟩ <;> rcases h with h | h <;> simp [response, h]

/-- Closed witness for the hard block theorem at a concrete response. -/
theorem response_hard_block_witness :
    response { netloc := "sorry.google.com", path := "/x", blocks := [] }
        = Except.error "sorry.google.com"
      ∧ ∀ blocks,
          response { netloc := "sorry.google.com", path := "/x", blocks := blocks }
            = Except.error "sorry.google.com" :=
  response_hard_block { netloc := "sorry.google.com", path := "/x", blocks := [] } (Or.inl rfl)

/-- Claim C4: when the path of the final resolved url starts with the
generic challenge prefix and the hard block condition does not hold,
`response` raises the interception signal carrying the human readable
CAPTCHA message, again independently of the body; and whenever the
hard block condition holds as well, the hard block signal wins. -/
theorem response_captcha (resp : Resp)
    (h1 : startswith resp.path "/sorry" = true)
    (h2 : resp.netloc ≠ "sorry.google.com")
    (h3 : resp.path ≠ "/sorry/IndexRedirect") :
    response resp = Except.error (gettext "CAPTCHA required")
      ∧ (∀ blocks,
          response { resp with blocks := blocks } = Except.error (gettext "CAPTCHA required"))
      ∧ ∀ r : Resp, startswith r.path "/sorry" = true →
          (r.netloc = "sorry.google.com" ∨ r.path = "/sorry/IndexRedirect") →
          response r = Except.error "sorry.google.com" := by
  refine ⟨?_, fun blocks => ?_, fun r hr hb => ?_⟩
  · simp [response, h1, h2, h3]
  · simp [response, h1, h2, h3]
  · rcases hb with hb | hb <;> simp [response, hb]

/-- Closed witness for the CAPTCHA theorem at a concrete response. -/
theorem response_captcha_witness :
    response { netloc := "www.google.com", path := "/sorry/index", blocks := [] }
        = Except.error (gettext "CAPTCHA required")
      ∧ (∀ blocks,
          response { netloc := "www.google.com", path := "/sorry/index", blocks := blocks }
            = Except.error (gettext "CAPTCHA required"))
      ∧ ∀ r : Resp, startswith r.path "/sorry" = true →
          (r.netloc = "sorry.google.com" ∨ r.path = "/sorry/IndexRedirect") →
          response r = Except.error "sorry.google.com" :=
  response_captcha { netloc := "www.google.com", path := "/sorry/index", blocks := [] }
    (by decide) (by decide) (by decide)

/-- Claim C2: on a non-intercepted response, `response` succeeds, returning
one record per block on which the per-block extraction succeeds, in
document order, with no reordering and no deduplication; broken blocks
contribute nothing and never make the whole call fail. -/
theorem response_partial_failure_isolation (resp : Resp)
    (h1 : resp.netloc ≠ "sorry.google.com")
    (h2 : resp.path ≠ "/sorry/IndexRedirect")
    (h3 : startswith resp.path "/sorry" = false) :
    response resp = Except.ok (resp.blocks.filterMap processBlock)
      ∧ resp.blocks.filterMap processBlock
          = (resp.blocks.filter fun b => (processBlock b).isSome).map
              (fun b => (processBlock b).getD { url := "", title := "", content := "", img_src := "" })
      ∧ (resp.blocks.filterMap processBlock).length
          = (resp.blocks.filter fun b => (processBlock b).isSome).length := by
  refine ⟨by simp [response, h1, h2, h3], filterMap_eq_map_filter _ _ _, ?_⟩
  rw [filterMap_eq_map_filter processBlock
    { url := "", title := "", content := "", img_src := "" }]
  simp

/-- Closed witness for the isolation theorem: on the concrete response
with a broken block between two well-formed ones, extraction succeeds
and returns exactly the two records of the well-formed blocks, in
document order. -/
theorem response_partial_failure_isolation_witness :
    response exResp = Except.ok (exResp.blocks.filterMap processBlock)
      ∧ exResp.blocks.filterMap processBlock = [exRecord, exRecord2] :=
  ⟨(response_partial_failure_isolation exResp (by decide) (by decide) (by decide)).1,
    by decide⟩

/-- A string append is non-empty when its left part is. -/
theorem append_ne_empty_left (a b : String) (h : a ≠ "") : a ++ b ≠ "" := by
  intro hc
  apply h
  rw [String.ext_iff] at hc ⊢
  simp [String.data_append] at hc
  simp [hc.1]

/-- Claim C5: the content of every extracted record is the raw snippet,
prefixed by publisher and relative date joined with a comma-space when
both are non-empty, by the single non-empty one with no separator when
only one is, and unchanged when both are empty. -/
theorem content_composition (b : ResultBlock) (r : ResultRecord)
    (h : processBlock b = some r) :
    (b.pub_origin ≠ "" → b.pub_date ≠ "" →
        r.content = b.pub_origin ++ ", " ++ b.pub_date ++ ": " ++ b.snippet)
      ∧ (b.pub_origin ≠ "" → b.pub_date = "" →
        r.content = b.pub_origin ++ ": " ++ b.snippet)
      ∧ (b.pub_origin = "" → b.pub_date ≠ "" →
        r.content = b.pub_date ++ ": " ++ b.snippet)
      ∧ (b.pub_origin = "" → b.pub_date = "" → r.content = b.snippet) := by
  rcases hj : b.jslog with _ | j
  · simp [processBlock, hj] at h
  rcases hf : findHttp j with _ | u
  · simp [processBlock, hj, hf] at h
  simp only [processBlock, hj, hf] at h
  have hr := Option.some.inj h
  subst hr
  refine ⟨fun ho hd => ?_, fun ho hd => ?_, fun ho hd => ?_, fun ho hd => ?_⟩
  · have hne : b.pub_origin ++ (", " ++ b.pub_date) ≠ "" := append_ne_empty_left _ _ ho
    simp [ho, hd, String.intercalate, String.intercalate.go, String.append_assoc, hne]
  · have hne : b.pub_origin ≠ "" := ho
    simp [ho, hd, String.intercalate, String.intercalate.go, hne, String.append_assoc]
  · have hne : b.pub_date ≠ "" := hd
    simp [ho, hd, String.intercalate, String.intercalate.go, hne, String.append_assoc]
  · simp [ho, hd, String.intercalate]

/-- Closed witness for the content composition theorem: on the block
with both publisher and date, the content is the comma-joined prefix
before the snippet. -/
theorem content_composition_witness :
    exRecord.content = exBlock.pub_origin ++ ", " ++ exBlock.pub_date ++ ": " ++ exBlock.snippet :=
  (content_composition exBlock exRecord (by decide)).1 (by decide) (by decide)

/-- No character of a takeUntilSemi run is a semicolon. -/
theorem takeUntilSemi_no_semi (l : List Char) : ∀ c ∈ takeUntilSemi l, c ≠ ';' := by
  induction l with
  | nil => simp [takeUntilSemi]
  | cons a t ih =>
    intro c hc
    by_cases ha : a = ';'
    · simp [takeUntilSemi, ha] at hc
    · rw [takeUntilSemi, if_neg ha] at hc
      rcases List.mem_cons.mp hc with rfl | hc
      · exact ha
      · exact ih c hc

/-- The takeUntilSemi run is an initial segment of the list, and what
follows it is empty or starts with the semicolon. -/
theorem takeUntilSemi_decomp (l : List Char) :
    ∃ rest, l = takeUntilSemi l ++ rest ∧ (rest = [] ∨ ∃ t, rest = ';' :: t) := by
  induction l with
  | nil => exact ⟨[], rfl, Or.inl rfl⟩
  | cons a t ih =>
    by_cases ha : a = ';'
    · exact ⟨a :: t, by simp [takeUntilSemi, ha], Or.inr ⟨t, by rw [ha]⟩⟩
    · obtain ⟨rest, hEq, hAlt⟩ := ih
      refine ⟨rest, ?_, hAlt⟩
      rw [takeUntilSemi, if_neg ha, List.cons_append, ← hEq]

/-- takeUntilSemi keeps the four leading characters of an http match. -/
theorem takeUntilSemi_http (t : List Char) :
    takeUntilSemi ('h' :: 't' :: 't' :: 'p' :: t)
      = 'h' :: 't' :: 't' :: 'p' :: takeUntilSemi t := by
  simp [takeUntilSemi]

/-- Characterization of the first regex match: the match is a segment
of the input that starts with the literal http at the first position
where http occurs, holds no semicolon, and runs to the character right
before the first following semicolon or to the end of the input. -/
theorem findHttpList_spec (l : List Char) : ∀ u, findHttpList l = some u →
    ∃ pre rest, l = pre ++ u ++ rest
      ∧ ['h', 't', 't', 'p'] <+: u
      ∧ (∀ c ∈ u, c ≠ ';')
      ∧ (rest = [] ∨ ∃ t, rest = ';' :: t)
      ∧ ∀ i < pre.length, ¬ (['h', 't', 't', 'p'] <+: l.drop i) := by
  induction l with
  | nil => intro u h; exact absurd h (by simp [findHttpList])
  | cons c cs ih =>
    intro u h
    by_cases hp : List.isPrefixOf ['h', 't', 't', 'p'] (c :: cs) = true
    · rw [findHttpList, if_pos (by exact_mod_cast hp)] at h
      have hu : u = takeUntilSemi (c :: cs) := (Option.some.inj h).symm
      obtain ⟨tl, htl⟩ := List.isPrefixOf_iff_prefix.mp hp
      obtain ⟨rest, hEq, hAlt⟩ := takeUntilSemi_decomp (c :: cs)
      refine ⟨[], rest, ?_, ?_, ?_, hAlt, by simp⟩
      · simp only [List.nil_append]
        rw [hu]; exact hEq
      · rw [hu, ← htl]
        simp only [List.cons_append, List.nil_append]
        rw [takeUntilSemi_http]
        exact ⟨takeUntilSemi tl, rfl⟩
      · rw [hu]; exact takeUntilSemi_no_semi (c :: cs)
    · rw [findHttpList, if_neg (by exact_mod_cast hp)] at h
      obtain ⟨pre, rest, hEq, hPre, hSemi, hAlt, hFirst⟩ := ih u h
      refine ⟨c :: pre, rest, by simp [hEq], hPre, hSemi, hAlt, ?_⟩
      intro i hi
      match i with
      | 0 =>
        intro hcontra
        exact hp ( List.isPrefixOf_iff_prefix.mpr (by simpa using hcontra))
      | Nat.succ i =>
        simpa using hFirst i (Nat.lt_of_succ_lt_succ hi)

/-- Claim C1: for every result block that yields a record, the url of the
record is the first regex match of the http-up-to-semicolon pattern on
the jslog tracking attribute of the first article-link element: it
starts with http at the first http occurrence inside the attribute,
holds no semicolon, and stops right before the next semicolon or at
the end.  The visible anchor href never enters the result.  A block
with no jslog attribute, or whose jslog holds no http substring,
yields no record. -/
theorem record_url_from_jslog (b : ResultBlock) :
    (∀ r, processBlock b = some r →
        ∃ j, b.jslog = some j ∧ findHttp j = some r.url
          ∧ ∃ pre rest, j.data = pre ++ r.url.data ++ rest
              ∧ ['h', 't', 't', 'p'] <+: r.url.data
              ∧ (∀ c ∈ r.url.data, c ≠ ';')
              ∧ (rest = [] ∨ ∃ t, rest = ';' :: t)
              ∧ ∀ i < pre.length, ¬ (['h', 't', 't', 'p'] <+: j.data.drop i))
      ∧ (∀ h, processBlock { b with href := h } = processBlock b)
      ∧ (b.jslog = none → processBlock b = none)
      ∧ (∀ j, b.jslog = some j → findHttp j = none → processBlock b = none) := by
  refine ⟨?_, fun h => rfl, fun hj => by simp [processBlock, hj], ?_⟩
  · intro r h
    rcases hj : b.jslog with _ | j
    · simp [processBlock, hj] at h
    rcases hf : findHttp j with _ | u
    · simp [processBlock, hj, hf] at h
    simp only [processBlock, hj, hf] at h
    have hr := Option.some.inj h
    have hru : r.url = u := by rw [← hr]
    obtain ⟨l, hl, hlu⟩ := Option.map_eq_some'.mp hf
    have hdata : r.url.data = l := by rw [hru, ← hlu]
    obtain ⟨pre, rest, hEq, hPre, hSemi, hAlt, hFirst⟩ := findHttpList_spec j.data l hl
    exact ⟨j, rfl, by rw [hru]; exact hf,
      pre, rest, by rw [hdata]; exact hEq, by rw [hdata]; exact hPre,
      by rw [hdata]; exact hSemi, hAlt, hFirst⟩
  · intro j hj hf
    simp [processBlock, hj, hf]

/-- Closed witness for the jslog url theorem at the concrete block. -/
theorem record_url_from_jslog_witness :
    ∃ j, exBlock.jslog = some j ∧ findHttp j = some exRecord.url
      ∧ ∃ pre rest, j.data = pre ++ exRecord.url.data ++ rest
          ∧ ['h', 't', 't', 'p'] <+: exRecord.url.data
          ∧ (∀ c ∈ exRecord.url.data, c ≠ ';')
          ∧ (rest = [] ∨ ∃ t, rest = ';' :: t)
          ∧ ∀ i < pre.length, ¬ (['h', 't', 't', 'p'] <+: j.data.drop i) :=
  (record_url_from_jslog exBlock).1 exRecord (by decide)

/-! ## Theorems on the request side -/

/-- Looking up the key just set returns the new value. -/
theorem lookup_setKey_self (m : List (String × String)) (k v : String) :
    List.lookup k (setKey m k v) = some v := by
  induction m with
  | nil => simp [setKey, List.lookup]
  | cons a t ih =>
    obtain ⟨k₀, v₀⟩ := a
    by_cases hk : k₀ = k
    · simp [setKey, hk, List.lookup]
    · have hb : (k == k₀) = false := beq_eq_false_iff_ne.mpr (Ne.symm hk)
      simp [setKey, hk, List.lookup, hb, ih]

/-- Setting one key leaves the lookup of every other key unchanged. -/
theorem lookup_setKey_ne (m : List (String × String)) (k k' v : String) (h : k' ≠ k) :
    List.lookup k' (setKey m k v) = List.lookup k' m := by
  have hb : (k' == k) = false := beq_eq_false_iff_ne.mpr h
  induction m with
  | nil => simp [setKey, List.lookup, hb]
  | cons a t ih =>
    obtain ⟨k₀, v₀⟩ := a
    by_cases hk : k₀ = k
    · subst hk
      simp [setKey, List.lookup, hb, ih]
    · by_cases hk' : k' = k₀
      · have hb' : (k' == k₀) = true := beq_iff_eq.mpr hk'
        simp [setKey, hk, List.lookup, hb']
      · have hb' : (k' == k₀) = false := beq_eq_false_iff_ne.mpr hk'
        simp [setKey, hk, List.lookup, hb', ih]

/-- Claim C9: request construction is total on well-formed queries: any
terms string, a time range out of the enumerated set or absent, a
safesearch level among off, moderate and strict, and a resolved locale
with non-empty language and country codes. -/
theorem request_total (query : String) (p : Params)
    (htr : p.time_range = "" ∨ p.time_range = "day" ∨ p.time_range = "week"
      ∨ p.time_range = "month" ∨ p.time_range = "year")
    (hss : p.safesearch = 0 ∨ p.safesearch = 1 ∨ p.safesearch = 2)
    (hl : p.language ≠ "") (hc : p.country ≠ "") :
    (request query p).isSome := by
  rcases hss with h | h | h <;> simp [request, h, filter_mapping, List.lookup]

/-- Closed witness for the totality theorem at the concrete params. -/
theorem request_total_witness : (request exQuery exParams).isSome :=
  request_total exQuery exParams (by decide) (by decide) (by decide) (by decide)

/-- Claim C10: request returns the given params dict having set only the url
entry and the Accept-Language and Accept entries of the headers
sub-mapping; the locale fields, the time range, the safesearch level,
the page number, every other params entry and every other header entry
are returned unchanged. -/
theorem request_frame (query : String) (p p' : Params) (h : request query p = some p') :
    p'.language = p.language ∧ p'.country = p.country
      ∧ p'.time_range = p.time_range ∧ p'.safesearch = p.safesearch
      ∧ p'.pageno = p.pageno ∧ p'.extra = p.extra
      ∧ List.lookup "Accept-Language" p'.headers
          = some (acceptLanguageValue p.language p.country)
      ∧ List.lookup "Accept" p'.headers = some acceptValue
      ∧ ∀ k, k ≠ "Accept-Language" → k ≠ "Accept" →
          List.lookup k p'.headers = List.lookup k p.headers := by
  simp only [request] at h
  split at h
  · exact absurd h (by simp)
  · have hp := Option.some.inj h
    subst hp
    refine ⟨rfl, rfl, rfl, rfl, rfl, rfl, ?_, ?_, ?_⟩
    · rw [lookup_setKey_ne _ _ _ _ (by decide), lookup_setKey_self]
    · rw [lookup_setKey_self]
    · intro k h1 h2
      rw [lookup_setKey_ne _ _ _ _ h2, lookup_setKey_ne _ _ _ _ h1]

/-- Closed witness for the frame theorem at the concrete params: the
unrelated header entry survives the call. -/
theorem request_frame_witness :
    List.lookup "User-Agent" exOut.headers = List.lookup "User-Agent" exParams.headers :=
  (request_frame exQuery exParams exOut (by decide)).2.2.2.2.2.2.2.2
    "User-Agent" (by decide) (by decide)

/-- The url `request` sets is the render of the fixed parameter list:
base plus the ampersand-joined percent-encoded parameters. -/
theorem request_url_render (query : String) (p p' : Params) (h : request query p = some p') :
    p'.url = "https://" ++ subdomain p.country ++ "/search" ++ "?"
      ++ String.intercalate "&" ((queryParams query p).map fun kv => urlencode1 kv.1 kv.2) := by
  simp only [request] at h
  split at h
  · exact absurd h (by simp)
  · rename_i tail htail
    have hp := Option.some.inj h
    subst hp
    rcases hlt : List.lookup p.time_range time_range_dict with _ | c <;>
      by_cases hss : p.safesearch = 0
    · simp only [hss, ne_eq, not_true_eq_false, if_false, reduceIte] at htail
      have ht := Option.some.inj htail
      subst ht
      simp [queryParams, hlt, hss, subdomain, String.intercalate, String.intercalate.go,
        String.append_assoc]
    · rcases hfm : List.lookup p.safesearch filter_mapping with _ | tok
      · simp [hss, hfm] at htail
      · simp only [hss, hfm, ne_eq, not_false_eq_true, if_true, reduceIte] at htail
        have ht := Option.some.inj htail
        subst ht
        simp [queryParams, hlt, hss, hfm, subdomain, String.intercalate,
          String.intercalate.go, String.append_assoc]
    · simp only [hss, ne_eq, not_true_eq_false, if_false, reduceIte] at htail
      have ht := Option.some.inj htail
      subst ht
      simp [queryParams, hlt, hss, subdomain, String.intercalate, String.intercalate.go,
        String.append_assoc]
    · rcases hfm : List.lookup p.safesearch filter_mapping with _ | tok
      · simp [hss, hfm] at htail
      · simp only [hss, hfm, ne_eq, not_false_eq_true, if_true, reduceIte] at htail
        have ht := Option.some.inj htail
        subst ht
        simp [queryParams, hlt, hss, hfm, subdomain, String.intercalate,
          String.intercalate.go, String.append_assoc]

/-- Claim C6: the parameter list holds a tbs time-filter entry exactly when
the time range is a key of the table, in which case the entry is
unique, carries the table token behind the qdr marker, and appears
percent-encoded in the built url. -/
theorem time_filter_param (query : String) (p : Params) :
    ((queryParams query p).filter (fun kv => kv.1 == "tbs")
        = match List.lookup p.time_range time_range_dict with
          | some c => [("tbs", "qdr:" ++ c)]
          | none => [])
      ∧ ((queryParams query p).countP (fun kv => kv.1 == "tbs")
          = if (List.lookup p.time_range time_range_dict).isSome then 1 else 0)
      ∧ ∀ c, List.lookup p.time_range time_range_dict = some c →
          ∀ p', request query p = some p' →
            ∃ s t, p'.url = s ++ "&" ++ urlencode1 "tbs" ("qdr:" ++ c) ++ t := by
  have hfilter : (queryParams query p).filter (fun kv => kv.1 == "tbs")
      = match List.lookup p.time_range time_range_dict with
        | some c => [("tbs", "qdr:" ++ c)]
        | none => [] := by
    rcases hlt : List.lookup p.time_range time_range_dict with _ | c <;>
      by_cases hss : p.safesearch = 0
    · simp [queryParams, hlt, hss, List.filter]
    · rcases hfm : List.lookup p.safesearch filter_mapping with _ | tok <;>
        simp [queryParams, hlt, hss, hfm, List.filter]
    · simp [queryParams, hlt, hss, List.filter]
    · rcases hfm : List.lookup p.safesearch filter_mapping with _ | tok <;>
        simp [queryParams, hlt, hss, hfm, List.filter]
  refine ⟨hfilter, ?_, ?_⟩
  · rw [List.countP_eq_length_filter, hfilter]
    rcases List.lookup p.time_range time_range_dict with _ | c <;> simp
  · intro c hlt p' hp'
    simp only [request, hlt] at hp'
    split at hp'
    · exact absurd hp' (by simp)
    · have hp := Option.some.inj hp'
      subst hp
      exact ⟨_, _, rfl⟩

/-- Closed witness for the time filter theorem: the concrete built url
carries the encoded weekly filter token. -/
theorem time_filter_param_witness :
    ∃ s t, exOut.url = s ++ "&" ++ urlencode1 "tbs" ("qdr:" ++ "w") ++ t :=
  (time_filter_param exQuery exParams).2.2 "w" (by decide) exOut (by decide)

/-- Claim C7: the hl parameter is language dash country; the keys appear in
the fixed order terms, hl, lr, the two encoding markers, then the
optional time range token and the optional safesearch token (the
latter exactly when the level is truthy); the list never holds a
pagination parameter and ignores the page number; and the built url is
the render of this list. -/
theorem hl_and_fixed_order (query : String) (p : Params) (hs : p.safesearch ≤ 2) :
    List.lookup "hl" (queryParams query p) = some (p.language ++ "-" ++ p.country)
      ∧ (queryParams query p).map Prod.fst
          = ["q", "hl", "lr", "ie", "oe"]
            ++ (if (List.lookup p.time_range time_range_dict).isSome then ["tbs"] else [])
            ++ (if p.safesearch ≠ 0 then ["safe"] else [])
      ∧ (∀ n, queryParams query { p with pageno := n } = queryParams query p)
      ∧ "start" ∉ (queryParams query p).map Prod.fst
      ∧ "pageno" ∉ (queryParams query p).map Prod.fst
      ∧ ∀ p', request query p = some p' →
          p'.url = "https://" ++ subdomain p.country ++ "/search" ++ "?"
            ++ String.intercalate "&" ((queryParams query p).map fun kv => urlencode1 kv.1 kv.2) := by
  have hkeys : (queryParams query p).map Prod.fst
      = ["q", "hl", "lr", "ie", "oe"]
        ++ (if (List.lookup p.time_range time_range_dict).isSome then ["tbs"] else [])
        ++ (if p.safesearch ≠ 0 then ["safe"] else []) := by
    have hss : p.safesearch = 0 ∨ p.safesearch = 1 ∨ p.safesearch = 2 := by omega
    rcases hlt : List.lookup p.time_range time_range_dict with _ | c <;>
      rcases hss with hss | hss | hss <;>
      (simp only [queryParams, hlt, hss]; simp [filter_mapping, List.lookup])
  refine ⟨by simp [queryParams, List.lookup], hkeys, fun n => rfl, ?_, ?_,
    fun p' h => request_url_render query p p' h⟩
  · rw [hkeys]
    intro hmem
    rcases List.mem_append.mp hmem with hmem | hmem
    · rcases List.mem_append.mp hmem with hmem | hmem
      · simp at hmem
      · split at hmem <;> simp at hmem
    · split at hmem <;> simp at hmem
  · rw [hkeys]
    intro hmem
    rcases List.mem_append.mp hmem with hmem | hmem
    · rcases List.mem_append.mp hmem with hmem | hmem
      · simp at hmem
      · split at hmem <;> simp at hmem
    · split at hmem <;> simp at hmem

/-- Closed witness for the fixed order theorem: the concrete parameter
list binds hl to language dash country. -/
theorem hl_and_fixed_order_witness :
    List.lookup "hl" (queryParams exQuery exParams)
      = some (exParams.language ++ "-" ++ exParams.country) :=
  (hl_and_fixed_order exQuery exParams (by decide)).1

/-- Claim C8: the host of the built url is news dot the domain table entry
of the upper-cased resolved country, and news.google.com when the
country is absent from the table. -/
theorem host_selection (query : String) (p p' : Params) (h : request query p = some p') :
    (∃ rest, p'.url = "https://"
        ++ ("news." ++ (List.lookup (strUpper p.country) google_domains).getD "google.com")
        ++ "/search" ++ "?" ++ rest)
      ∧ (List.lookup (strUpper p.country) google_domains = none →
        ∃ rest, p'.url = "https://" ++ "news.google.com" ++ "/search" ++ "?" ++ rest) := by
  have hu := request_url_render query p p' h
  simp only [subdomain] at hu
  constructor
  · exact ⟨_, hu⟩
  · intro h0
    rw [h0, Option.getD_none] at hu
    have hnews : ("news." ++ "google.com" : String) = "news.google.com" := rfl
    rw [hnews] at hu
    exact ⟨_, hu⟩

/-- Closed witness for the host theorem: a country absent from the
table gets the canonical default host. -/
theorem host_selection_witness :
    ∃ rest, exOutZZ.url = "https://" ++ "news.google.com" ++ "/search" ++ "?" ++ rest :=
  (host_selection exQuery exParamsZZ exOutZZ (by decide)).2 (by decide)

end GoogleNews
